import Mathlib

/-!
Verification of the compacty compression orchestrator against its specification.

The development shallowly embeds the relevant Go functions:
- the argument-reference resolver of internal/config/config.go
  (ToolConfig.resolveReferences / ResolveReferencesForPreset),
- the winner selection and artifact placement of the compression process
  (findBestToolSize, flushResult, moveFile, prepareSingleTempFile,
  executeAndReport, generateSingleResult, generateErrorResult),
- the decode-time benchmark (benchDecodeTime, getDecodeFunc).

Go strings are modelled as lists of characters (GoStr); Go maps that are only
looked up by key are modelled as association lists read with List.lookup
(first binding wins, as Go map keys are unique); Go int64 sizes are modelled
as Int (the claims only compare sizes, no overflow is involved); a Go error
value is modelled as an Option GoStr holding the message when non-nil.
Since the Go recursion of resolveReferences genuinely diverges on one family
of degenerate inputs (see NeverResolves below), the faithful total embedding
carries an explicit fuel; a fuel of (number of argument lists + 1) bounds the
recursion depth whenever the Go code terminates from a top-level call, which
is proved below for acyclic reference graphs.
-/

/-! ### Go strings -/
abbrev GoStr := List Char

/-- Models strings.CutPrefix: returns the remainder when the second string
starts with the first, and Go's "found = false" as none otherwise. -/
def cutPrefix : GoStr → GoStr → Option GoStr
  | [], s => some s
  | _ :: _, [] => none
  | p :: ps, c :: cs => if p = c then cutPrefix ps cs else none

/-- config.ReferencePrefix, the marker that turns an argument token into a
reference to another named argument list of the same tool. -/
def ReferencePrefix : GoStr := ("@").data

/-- Models the %q verb of fmt.Errorf for the plain identifier-like names used
here: the string surrounded by double quotes (escaping of special characters
inside the name is not modelled; no claim depends on it). -/
def goQuote (s : GoStr) : GoStr := '"' :: (s ++ ['"'])

/-- Models strings.Join(trace, " -> "). -/
def joinArrow : List GoStr → GoStr
  | [] => []
  | [s] => s
  | s :: rest => s ++ (" -> ").data ++ joinArrow rest

/-! ### The argument-reference resolver (config.go lines 227-265) -/
/-- The error message built at config.go line 236 for a reference to an
unknown preset: "%q has preset reference that points to an unknown preset %q
at: %s" applied to (nameAs, presetName, previousPreset). -/
def unknownPresetErr (nameAs presetName previousPreset : GoStr) : GoStr :=
  goQuote nameAs ++ (" has preset reference that points to an unknown preset ").data
    ++ goQuote presetName ++ (" at: ").data ++ previousPreset

/-- The error message built at config.go line 247 for a cyclic reference:
"%q has cyclic preset reference, trace: %s" applied to nameAs and the
" -> "-joined trace. -/
def cyclicErr (nameAs : GoStr) (trace : List GoStr) : GoStr :=
  goQuote nameAs ++ (" has cyclic preset reference, trace: ").data ++ joinArrow trace

/-- config.go lines 239-242: the per-call trace is a copy of the previous
trace, extended with the previous preset name when that name is not empty. -/
def mkTrace (previousTrace : List GoStr) (previousPreset : GoStr) : List GoStr :=
  if previousPreset = [] then previousTrace else previousTrace ++ [previousPreset]

/-- Marker returned by the embedding when the fuel is exhausted.  The Go
function has no such outcome: at the call shapes where this marker survives to
the result for every fuel, the Go recursion does not terminate at all. -/
def outOfFuelErr : GoStr := ("argument resolution exceeded the recursion budget").data

/-- ToolConfig.resolveReferences (config.go lines 231-265), with `args` for
t.Arguments.  The fold processes the argument tokens left to right exactly as
the Go loop does: a literal token is appended to the result, a token carrying
the reference marker is replaced in place by the recursive resolution of the
referenced list, and the errors of all recursive calls are concatenated in
order. -/
def resolveReferencesFuel (args : List (GoStr × List GoStr)) :
    Nat → GoStr → GoStr → GoStr → List GoStr → List GoStr × List GoStr
  | 0, _, _, _, _ => ([], [outOfFuelErr])
  | fuel + 1, presetName, nameAs, previousPreset, previousTrace =>
    match List.lookup presetName args with
    | none => ([], [unknownPresetErr nameAs presetName previousPreset])
    | some arguments =>
      let trace := mkTrace previousTrace previousPreset
      if presetName ∈ trace then
        ([], [cyclicErr nameAs (trace ++ [presetName])])
      else
        List.foldr
          (fun argument acc =>
            match cutPrefix ReferencePrefix argument with
            | some reference =>
              let inner := resolveReferencesFuel args fuel reference nameAs presetName trace
              (inner.1 ++ acc.1, inner.2 ++ acc.2)
            | none => (argument :: acc.1, acc.2))
          ([], []) arguments

/-- The step of the argument fold of resolveReferencesFuel, named so that the
unfolding lemma below can expose the fold. -/
def resolveStep (args : List (GoStr × List GoStr)) (fuel : Nat)
    (nameAs presetName : GoStr) (trace : List GoStr)
    (argument : GoStr) (acc : List GoStr × List GoStr) : List GoStr × List GoStr :=
  match cutPrefix ReferencePrefix argument with
  | some reference =>
    let inner := resolveReferencesFuel args fuel reference nameAs presetName trace
    (inner.1 ++ acc.1, inner.2 ++ acc.2)
  | none => (argument :: acc.1, acc.2)

/-- ToolConfig.ResolveReferencesForPreset (config.go lines 227-229): the
resolver started with an empty previous preset and an empty trace.  The fuel
args.length + 1 dominates the Go recursion depth on every input on which the
Go code terminates from this top-level shape. -/
def ResolveReferencesForPreset (args : List (GoStr × List GoStr))
    (presetName nameAs : GoStr) : List GoStr × List GoStr :=
  resolveReferencesFuel args (args.length + 1) presetName nameAs [] []

/-! ### The specification-side expansion

Modelled from the spec: "return the flat, ordered token sequence that results
from substituting every reference token in place with the fully-expanded
sequence of the referenced list, preserving the literal order elsewhere",
with "tree expansion, not memoized".  This is the second definition that the
refinement claim C1 compares against the code-side resolver. -/
def specExpandFuel (args : List (GoStr × List GoStr)) : Nat → GoStr → List GoStr
  | 0, _ => []
  | fuel + 1, name =>
    match List.lookup name args with
    | none => []
    | some tokens =>
      List.foldr
        (fun tok acc =>
          match cutPrefix ReferencePrefix tok with
          | some reference => specExpandFuel args fuel reference ++ acc
          | none => tok :: acc)
        [] tokens

/-- The step of the token fold of specExpandFuel. -/
def specStep (args : List (GoStr × List GoStr)) (fuel : Nat)
    (tok : GoStr) (acc : List GoStr) : List GoStr :=
  match cutPrefix ReferencePrefix tok with
  | some reference => specExpandFuel args fuel reference ++ acc
  | none => tok :: acc

/-- The full textual substitution of the spec, at the same recursion budget as
ResolveReferencesForPreset. -/
def specExpand (args : List (GoStr × List GoStr)) (name : GoStr) : List GoStr :=
  specExpandFuel args (args.length + 1) name

/-! ### The reference graph -/
/-- List `a` holds a reference token naming list `b`. -/
def RefersTo (args : List (GoStr × List GoStr)) (a b : GoStr) : Prop :=
  ∃ l, List.lookup a args = some l ∧ (ReferencePrefix ++ b) ∈ l

/-- The reference graph is acyclic: no chain of references leads from a name
back to itself. -/
def Acyclic (args : List (GoStr × List GoStr)) : Prop :=
  ∀ (a : GoStr) (l : List GoStr), ¬ List.Chain (RefersTo args) a (l ++ [a])

/-- Decidable check that one token, if it is a reference, points to a defined
list. -/
def refTargetDefined (args : List (GoStr × List GoStr)) (tok : GoStr) : Bool :=
  match cutPrefix ReferencePrefix tok with
  | some r => (List.lookup r args).isSome
  | none => true

/-- Every reference token of every defined list names a defined list. -/
def AllRefsDefined (args : List (GoStr × List GoStr)) : Prop :=
  ∀ p ∈ args, ∀ tok ∈ p.2, refTargetDefined args tok = true

instance (args : List (GoStr × List GoStr)) : Decidable (AllRefsDefined args) := by
  unfold AllRefsDefined
  infer_instance

/-- The names skipped by the trace bookkeeping: config.go appends a preset
name to the trace only when it is not the empty string. -/
def dropEmpties (l : List GoStr) : List GoStr := l.filter (fun s => !(s == []))

/-- The number of distinct defined list names not yet on the expansion path:
the measure that bounds the remaining recursion depth of the resolver. -/
def remainingKeys (args : List (GoStr × List GoStr)) (path : List GoStr) : Nat :=
  (((args.map Prod.fst).dedup).filter (fun k => decide (¬ k ∈ path))).length

/-! ### A decidable sufficient criterion for acyclicity -/
/-- A ranking certificate: every reference steps strictly down in rank. -/
def rankedBy (args : List (GoStr × List GoStr)) (rank : GoStr → Nat) : Bool :=
  args.all (fun p => p.2.all (fun tok =>
    match cutPrefix ReferencePrefix tok with
    | some r => decide (rank r < rank p.1)
    | none => true))

/-! ### Concrete resolver inputs used by the claims -/
/-- The spec's worked example: start references one twice. -/
def exResolve : List (GoStr × List GoStr) :=
  [ (("start").data, [("@one").data, ("4").data, ("5").data, ("@one").data]),
    (("one").data,   [("1").data, ("2").data, ("3").data]) ]

def exRank : GoStr → Nat := fun s => if s == ("start").data then 1 else 0

/-- The spec's direct self-reference example. -/
def exSelf : List (GoStr × List GoStr) := [(("start").data, [("@start").data])]

/-- A degenerate tool map on which Go's resolveReferences never returns: the
single list is named by the empty string and holds the bare reference marker
"@", a reference that names the empty-named list itself.  Because config.go
line 240 only appends non-empty names to the trace, this revisit is never
detected and the Go recursion is infinite. -/
def exEmptyLoop : List (GoStr × List GoStr) := [(([] : GoStr), [("@").data])]

/-- Both cycles of the spec's independent-error example. -/
def exCollect : List (GoStr × List GoStr) :=
  [ (("start").data, [("@one").data, ("@two").data]),
    (("one").data, [("@one").data]),
    (("two").data, [("@two").data]) ]

/-- One unknown reference and one cycle on separate branches. -/
def exCollectMixed : List (GoStr × List GoStr) :=
  [ (("start").data, [("@missing").data, ("@loop").data]),
    (("loop").data, [("@loop").data]) ]

/-- A two-step chain reaching an unknown reference: the traversed chain is
start, one but the error message only names one. -/
def exChain : List (GoStr × List GoStr) :=
  [ (("start").data, [("@one").data]),
    (("one").data, [("@missing").data]) ]

/-- Decidable substring check: needle occurs contiguously inside hay. -/
def containsRun (hay needle : GoStr) : Bool :=
  (List.range (hay.length + 1)).any (fun i => needle.isPrefixOf (List.drop i hay))

/-- The divergence predicate: at every fuel the embedding reports fuel
exhaustion, i.e. the Go recursion never reaches a base case from this
top-level call. -/
def NeverResolves (args : List (GoStr × List GoStr)) (presetName nameAs : GoStr) : Prop :=
  ∀ fuel : Nat, resolveReferencesFuel args fuel presetName nameAs [] [] = ([], [outOfFuelErr])

/-! ### The compression orchestrator's data model (part_003)

Process handles, wall-clock durations and the real file system are outside a
shallow embedding; durations are carried as opaque Int values, file contents
as GoStr, and each fallible OS call takes its outcome as an explicit oracle
argument, so that every control-flow branch of the Go code is represented. -/
inductive OutputMode
  | Unknown
  | BatchOverwrite
  | InputOutput
  | Stdout
deriving DecidableEq

/-- DecodeTimeBench (part_004): durations in nanoseconds as Int. -/
structure DecodeTimeBench where
  Total : Int := 0
  Average : Int := 0
  Trials : Int := 0
  Err : Option GoStr := none
deriving DecidableEq

structure FileInfo where
  Path : GoStr
  Directory : GoStr
  FileName : GoStr
  BaseName : GoStr
  Extension : GoStr
  Size : Int
  Decode : DecodeTimeBench := {}
deriving DecidableEq

structure TempFile where
  Path : GoStr
  CreateError : Option GoStr
deriving DecidableEq

/-- CompressionResult (part_003 lines 57-71); the exec.Cmd handle is omitted,
everything the claims touch is kept. -/
structure CompressionResult where
  Arguments : List GoStr := []
  TimeTaken : Int := 0
  OriginalSize : Int := 0
  FinalSize : Int := 0
  CreateError : Option GoStr := none
  CommandError : Option GoStr := none
  ReadFinalSizeError : Option GoStr := none
  Decode : DecodeTimeBench := {}
deriving DecidableEq

/-- CompressionResult.HasError (part_003 lines 368-370). -/
def CompressionResult.HasError (r : CompressionResult) : Bool :=
  r.CommandError.isSome || r.ReadFinalSizeError.isSome || r.Decode.Err.isSome
    || r.CreateError.isSome

/-- One iteration of the loop of findBestToolSize (part_003 lines 372-388):
skip errored results, keep the strictly smaller final size. -/
def findBestStep (acc : GoStr × Int) (p : GoStr × CompressionResult) : GoStr × Int :=
  if p.2.HasError then acc
  else if p.2.FinalSize < acc.2 then (p.1, p.2.FinalSize)
  else acc

/-- CompressionProcess.findBestToolSize for one file: the per-file results,
one (toolName, result) pair per tool of c.Results, folded with bestSize
starting at the original size and bestTool starting empty.  Go iterates the
Results map in unspecified order; the list order stands in for one such
order, and the claims proved below hold for every order. -/
def findBestToolSize (results : List (GoStr × CompressionResult)) (originalSize : Int) : GoStr :=
  (results.foldl findBestStep ([], originalSize)).1

inductive WriteMode
  | KeepBest
  | KeepAll
  | Overwrite
  | None
deriving DecidableEq

/-- Models filepath.Join for the joins performed here (path cleaning of
redundant separators is not modelled; no claim depends on it). -/
def pathJoin (dir fileName : GoStr) : GoStr :=
  if dir = [] then fileName else dir ++ ('/' :: fileName)

/-- compressedFilePath (part_003 lines 813-816): dir/<base>-<tool><extension>. -/
def compressedFilePath (dir baseName toolName extension : GoStr) : GoStr :=
  pathJoin dir (baseName ++ ('-' :: toolName) ++ extension)

/-- The observable effect of CompressionProcess.flushResult (part_003 lines
404-459) for one file: the ordered (source, destination) moveFile calls it
issues, and whether it printed the "File cannot be compressed further. The
original file is left as is." notice instead of touching anything.
tempPathOf models c.TempFiles[toolName][fileIdx].Path. -/
structure FlushOutcome where
  moves : List (GoStr × GoStr)
  untouchedNotice : Bool
deriving DecidableEq

def flushResult (results : List (GoStr × CompressionResult)) (tempPathOf : GoStr → GoStr)
    (fileInfo : FileInfo) (fromTool : GoStr) (writeMode : WriteMode) : FlushOutcome :=
  match writeMode with
  | .None => ⟨[], false⟩
  | .KeepAll =>
    ⟨results.map (fun p =>
        (tempPathOf p.1,
         compressedFilePath fileInfo.Directory fileInfo.BaseName p.1 fileInfo.Extension)),
     false⟩
  | .KeepBest =>
    if fromTool = [] then ⟨[], true⟩
    else
      ⟨[(tempPathOf fromTool,
         compressedFilePath fileInfo.Directory fileInfo.BaseName fromTool fileInfo.Extension)],
       false⟩
  | .Overwrite =>
    if fromTool = [] then ⟨[], true⟩
    else ⟨[(tempPathOf fromTool, fileInfo.Path)], false⟩

/-- Concrete winner-selection input: two error-free candidates (80 and 90
bytes) and an errored 10-byte candidate against a 100-byte original. -/
def exResults : List (GoStr × CompressionResult) :=
  [ (("a").data, { OriginalSize := 100, FinalSize := 80 }),
    (("b").data, { OriginalSize := 100, FinalSize := 90 }),
    (("c").data, { OriginalSize := 100, FinalSize := 10,
                   CommandError := some (("boom").data) }) ]

def exFileInfo : FileInfo :=
  { Path := ("dir/f.png").data, Directory := ("dir").data, FileName := ("f.png").data,
    BaseName := ("f").data, Extension := (".png").data, Size := 100 }

/-! ### Claim C7: moveFile (part_003 lines 867-884) -/
/-- The file system as a path-to-contents association list. -/
abbrev FileSystem := List (GoStr × GoStr)

/-- os.Remove: drop every binding of the path. -/
def fsRemove (fs : FileSystem) (path : GoStr) : FileSystem :=
  fs.filter (fun q => !(q.1 == path))

/-- Outcome oracle for os.Rename: success, an *os.LinkError (the cross-device
case that triggers the copy fallback at part_003 line 874), or another error. -/
inductive RenameOutcome
  | renamed
  | linkError
  | otherError
deriving DecidableEq

/-- Outcome oracle for copyFileTo (part_003 lines 850-865): success, a failed
os.Open of the source, a failed os.Create of the destination (nothing
written), or a failed io.Copy after `written` bytes already reached the
created destination. -/
inductive CopyOutcome
  | copied
  | openFailed
  | createFailed
  | writeFailed (written : GoStr)
deriving DecidableEq

/-- Outcome oracle for os.Remove. -/
inductive RemoveOutcome
  | removed
  | removeFailed
deriving DecidableEq

def errRenameFailed : GoStr := ("rename failed").data

def errCopyOpenFailed : GoStr := ("copy failed: cannot open source").data

def errCopyCreateFailed : GoStr := ("copy failed: cannot create destination").data

def errCopyWriteFailed : GoStr := ("copy failed: write error").data

def errRemoveFailed : GoStr := ("remove failed").data

/-- copyFileTo (part_003 lines 850-865): open the source (which always fails
when the source is absent), create the destination, copy.  A create failure
writes nothing; a failed io.Copy leaves whatever prefix was already written at
the destination. -/
def copyFileTo (fs : FileSystem) (pathSrc pathDest : GoStr) (outcome : CopyOutcome) :
    Option GoStr × FileSystem :=
  match List.lookup pathSrc fs with
  | none => (some errCopyOpenFailed, fs)
  | some content =>
    match outcome with
    | .openFailed => (some errCopyOpenFailed, fs)
    | .createFailed => (some errCopyCreateFailed, fs)
    | .writeFailed written => (some errCopyWriteFailed, (pathDest, written) :: fs)
    | .copied => (none, (pathDest, content) :: fs)

/-- moveFile (part_003 lines 867-884): attempt os.Rename first; on a link
error fall back to copyFileTo and, if the copy succeeded, os.Remove of the
source (whose failure is returned); any other rename error is returned as is.
Returns (error, resulting file system). -/
def moveFile (fs : FileSystem) (pathSrc pathDest : GoStr) (renameOutcome : RenameOutcome)
    (copyOutcome : CopyOutcome) (removeOutcome : RemoveOutcome) :
    Option GoStr × FileSystem :=
  match renameOutcome with
  | .renamed =>
    match List.lookup pathSrc fs with
    | some content => (none, fsRemove ((pathDest, content) :: fs) pathSrc)
    | none => (none, fs)
  | .linkError =>
    match copyFileTo fs pathSrc pathDest copyOutcome with
    | (some e, fsAfter) => (some e, fsAfter)
    | (none, fsAfter) =>
      match removeOutcome with
      | .removed => (none, fsRemove fsAfter pathSrc)
      | .removeFailed => (some errRemoveFailed, fsAfter)
  | .otherError => (some errRenameFailed, fs)

def exFS : FileSystem := [(("a").data, ("payload").data)]

/-! ### Claims C8 and C9: per-invocation preparation, execution and result -/
/-- os.TempDir as used by prepareSingleTempFile. -/
def tempDir : GoStr := ("/tmp").data

/-- The per-invocation state produced by compressionCommand.prepareSingleTempFile
(part_003 lines 574-612): the temp file record, cc.inputPaths and cc.stdoutFile. -/
structure PrepState where
  tempFile : TempFile
  inputPaths : List GoStr
  stdoutFile : Option GoStr
deriving DecidableEq

/-- prepareSingleTempFile: in stdout mode, create the temp file for redirected
standard output (outcome given by the createErr oracle: os.Create); for an
overwriting (batch-overwrite) tool, duplicate the input into the temp location
(copyErr oracle: copyFileTo); otherwise pass input and temp output as the two
positional paths.  On a creation failure inputPaths is emptied and the error
is recorded on the TempFile. -/
def prepareSingleTempFile (outputMode : OutputMode) (fileInfo : FileInfo) (toolName : GoStr)
    (createErr copyErr : Option GoStr) : PrepState :=
  let tempPath := compressedFilePath tempDir fileInfo.BaseName toolName fileInfo.Extension
  if outputMode = OutputMode.Stdout then
    match createErr with
    | some e => ⟨⟨tempPath, some e⟩, [], none⟩
    | none => ⟨⟨tempPath, none⟩, [fileInfo.Path], some tempPath⟩
  else if outputMode = OutputMode.BatchOverwrite then
    match copyErr with
    | some e => ⟨⟨tempPath, some e⟩, [], none⟩
    | none => ⟨⟨tempPath, none⟩, [tempPath], none⟩
  else ⟨⟨tempPath, none⟩, [fileInfo.Path, tempPath], none⟩

def errCmdNotFound : GoStr := ("tool not found").data

def errNoInput : GoStr := ("no input given").data

/-- compressionCommand.executeAndReport (part_003 lines 712-748).  Returns the
resulting cc.commandError together with a flag recording whether cmd.Run was
reached, i.e. whether the external process was spawned.  runErr is the outcome
oracle of cmd.Run, closeErr of closing the stdout file. -/
def executeAndReport (isAvailable : Bool) (inputPaths : List GoStr)
    (stdoutFile : Option GoStr) (runErr closeErr : Option GoStr) : Option GoStr × Bool :=
  if isAvailable = false then (some errCmdNotFound, false)
  else if inputPaths.length = 0 then (some errNoInput, false)
  else
    match runErr with
    | some e => (some e, true)
    | none =>
      match stdoutFile with
      | some _ =>
        match closeErr with
        | some e => (some e, true)
        | none => (none, true)
      | none => (none, true)

/-- compressionCommand.generateErrorResult (part_003 lines 796-811). -/
def generateErrorResult (err : GoStr) (arguments : List GoStr) (timeTaken : Int)
    (originalFileInfo : FileInfo) (tempFile : TempFile) : CompressionResult :=
  { Arguments := arguments, FinalSize := originalFileInfo.Size,
    OriginalSize := originalFileInfo.Size, TimeTaken := timeTaken,
    CommandError := some err, ReadFinalSizeError := none,
    CreateError := tempFile.CreateError }

/-- compressionCommand.generateSingleResult (part_003 lines 750-785); readSize
is the outcome oracle of getFileSize on the temp path (which returns size 0
alongside the error on failure). -/
def generateSingleResult (isAvailable : Bool) (commandError : Option GoStr)
    (arguments : List GoStr) (timeTaken : Int) (originalFileInfo : FileInfo)
    (tempFile : TempFile) (readSize : Except GoStr Int) : CompressionResult :=
  if isAvailable = false then
    generateErrorResult errCmdNotFound arguments timeTaken originalFileInfo tempFile
  else if tempFile.CreateError.isSome then
    { Arguments := arguments, FinalSize := originalFileInfo.Size,
      OriginalSize := originalFileInfo.Size, TimeTaken := timeTaken,
      CommandError := commandError, ReadFinalSizeError := none,
      CreateError := tempFile.CreateError }
  else
    match readSize with
    | .ok finalSize =>
      { Arguments := arguments, FinalSize := finalSize,
        OriginalSize := originalFileInfo.Size, TimeTaken := timeTaken,
        CommandError := commandError, ReadFinalSizeError := none, CreateError := none }
    | .error eSize =>
      { Arguments := arguments, FinalSize := 0,
        OriginalSize := originalFileInfo.Size, TimeTaken := timeTaken,
        CommandError := commandError, ReadFinalSizeError := some eSize, CreateError := none }

/-! ### Claim C10: the decode-time benchmark (part_004 lines 47-106) -/
/-- getDecodeFunc: the decodable content types; returns the Go function's ok
flag.  mime.Is is modelled as comparison with the normalized type string. -/
def getDecodeFunc (mime : GoStr) : Bool :=
  mime == ("image/png").data || mime == ("image/jpeg").data || mime == ("image/gif").data

/-- benchDecodeTime: read the file (readData oracle for os.ReadFile), detect
the content type (detected oracle for mimetype.DetectReader), look up a decode
function, run the untimed validation decode (validateErr oracle), then the
timed loop, whose observed total duration and trial count are the two final
oracles (the loop itself sets no error; Average is total/trials as in Go). -/
def benchDecodeTime (readData : Except GoStr GoStr) (detected : Except GoStr GoStr)
    (validateErr : Option GoStr) (loopTotal loopTrials : Int) : DecodeTimeBench :=
  match readData with
  | .error e => { Err := some e }
  | .ok _ =>
    match detected with
    | .error e => { Err := some e }
    | .ok mime =>
      if getDecodeFunc mime then
        match validateErr with
        | some e => { Err := some e }
        | none => { Total := loopTotal, Average := loopTotal / loopTrials,
                    Trials := loopTrials }
      else {}

theorem resolveReferencesFuel_succ (args : List (GoStr × List GoStr)) (fuel : Nat)
    (presetName nameAs previousPreset : GoStr) (previousTrace : List GoStr) :
    resolveReferencesFuel args (fuel + 1) presetName nameAs previousPreset previousTrace =
      match List.lookup presetName args with
      | none => ([], [unknownPresetErr nameAs presetName previousPreset])
      | some arguments =>
        if presetName ∈ mkTrace previousTrace previousPreset then
          ([], [cyclicErr nameAs (mkTrace previousTrace previousPreset ++ [presetName])])
        else
          List.foldr (resolveStep args fuel nameAs presetName (mkTrace previousTrace previousPreset))
            ([], []) arguments := rfl

theorem specExpandFuel_succ (args : List (GoStr × List GoStr)) (fuel : Nat) (name : GoStr) :
    specExpandFuel args (fuel + 1) name =
      match List.lookup name args with
      | none => []
      | some tokens => List.foldr (specStep args fuel) [] tokens := rfl

/-! ### Basic lemmas -/
theorem cutPrefix_eq_some {m : GoStr} : ∀ {s r : GoStr}, cutPrefix m s = some r ↔ s = m ++ r := by
  induction m with
  | nil => intro s r; simp [cutPrefix]
  | cons p ps ih =>
    intro s r
    cases s with
    | nil => simp [cutPrefix]
    | cons c cs =>
      rw [cutPrefix]
      by_cases h : p = c
      · subst h
        rw [if_pos rfl, ih]
        simp
      · rw [if_neg h]
        constructor
        · intro hc
          simp at hc
        · intro hc
          rw [List.cons_append] at hc
          injection hc with h1 _
          exact absurd h1.symm h

theorem lookup_mem {args : List (GoStr × List GoStr)} {k : GoStr} {v : List GoStr}
    (h : List.lookup k args = some v) : (k, v) ∈ args := by
  induction args with
  | nil => simp [List.lookup] at h
  | cons p rest ih =>
    cases hk : k == p.1 with
    | false =>
      simp only [List.lookup, hk] at h
      exact List.mem_cons.mpr (Or.inr (ih h))
    | true =>
      simp only [List.lookup, hk] at h
      have hkp : k = p.1 := eq_of_beq hk
      cases h
      subst hkp
      simp

theorem dropEmpties_append_singleton (P : List GoStr) (p : GoStr) :
    dropEmpties (P ++ [p]) = if p = [] then dropEmpties P else dropEmpties P ++ [p] := by
  by_cases h : p = []
  · subst h
    simp [dropEmpties, List.filter_append]
  · have : (p == ([] : GoStr)) = false := by
      simp [h]
    simp [dropEmpties, List.filter_append, this, h]

theorem mem_of_mem_dropEmpties {P : List GoStr} {p : GoStr} (h : p ∈ dropEmpties P) : p ∈ P :=
  List.mem_of_mem_filter h

theorem chain_into_last {r : GoStr → GoStr → Prop} :
    ∀ (l : List GoStr) (b a : GoStr), List.Chain r b (l ++ [a]) → ∃ y, r y a := by
  intro l
  induction l with
  | nil =>
    intro b a h
    rw [List.nil_append, List.chain_cons] at h
    exact ⟨b, h.1⟩
  | cons c cs ih =>
    intro b a h
    rw [List.cons_append, List.chain_cons] at h
    exact ih c a h.2

/-- The expansion path never revisits a name when the reference graph is
acyclic: the trace grows strictly along every branch. -/
theorem not_mem_of_chain'_acyclic {args : List (GoStr × List GoStr)}
    (hacyc : Acyclic args) {P : List GoStr} {p : GoStr}
    (hchain : List.Chain' (RefersTo args) (P ++ [p])) : ¬ p ∈ P := by
  intro hmem
  obtain ⟨A, B, rfl⟩ := List.append_of_mem hmem
  have hsuffix : List.Chain' (RefersTo args) ((p :: B) ++ [p]) := by
    have : (A ++ p :: B) ++ [p] = A ++ ((p :: B) ++ [p]) := by
      simp
    rw [this] at hchain
    exact hchain.right_of_append
  have : List.Chain (RefersTo args) p (B ++ [p]) := by
    simpa [List.Chain'] using hsuffix
  exact hacyc p B this

theorem chain'_snoc {r : GoStr → GoStr → Prop} {l : List GoStr} {a b : GoStr}
    (h : List.Chain' r (l ++ [a])) (hab : r a b) :
    List.Chain' r ((l ++ [a]) ++ [b]) := by
  apply List.Chain'.append h (List.chain'_singleton b)
  intro x hx y hy
  simp at hy
  rw [List.getLast?_concat] at hx
  simp at hx
  rw [← hx, ← hy]
  exact hab

theorem filter_mono_length {α : Type} {f g : α → Bool}
    (himp : ∀ a, f a = true → g a = true) :
    ∀ (l : List α), (l.filter f).length ≤ (l.filter g).length := by
  intro l
  induction l with
  | nil => simp
  | cons a rest ih =>
    have h := ih
    cases hf : f a with
    | false =>
      cases hg : g a with
      | false =>
        simp [List.filter_cons, hf, hg]
        omega
      | true =>
        simp [List.filter_cons, hf, hg]
        omega
    | true =>
      have hg := himp a hf
      simp [List.filter_cons, hf, hg]
      omega

theorem filter_subpred_length_lt {α : Type} {f g : α → Bool} {x : α}
    (himp : ∀ a, f a = true → g a = true) :
    ∀ {l : List α}, x ∈ l → f x = false → g x = true →
      (l.filter f).length < (l.filter g).length := by
  intro l
  induction l with
  | nil => intro h _ _; cases h
  | cons a rest ih =>
    intro hmem hfx hgx
    rcases List.mem_cons.mp hmem with rfl | hmem'
    · have hmono := filter_mono_length himp rest
      simp [List.filter_cons, hfx, hgx]
      omega
    · cases hfa : f a with
      | true =>
        have hga := himp a hfa
        have hlt := ih hmem' hfx hgx
        simp [List.filter_cons, hfa, hga]
        omega
      | false =>
        have hlt := ih hmem' hfx hgx
        cases hga : g a with
        | false =>
          simp [List.filter_cons, hfa, hga]
          omega
        | true =>
          simp [List.filter_cons, hfa, hga]
          omega

theorem remainingKeys_snoc_lt {args : List (GoStr × List GoStr)} {P : List GoStr} {p : GoStr}
    (hkey : p ∈ args.map Prod.fst) (hnm : ¬ p ∈ P) :
    remainingKeys args (P ++ [p]) < remainingKeys args P := by
  apply filter_subpred_length_lt
  · intro a ha
    simp only [decide_eq_true_eq] at ha ⊢
    intro hmem
    exact ha (List.mem_append_left _ hmem)
  · exact List.mem_dedup.mpr hkey
  · simp
  · simp [hnm]

theorem remainingKeys_nil_le (args : List (GoStr × List GoStr)) :
    remainingKeys args [] ≤ args.length := by
  unfold remainingKeys
  have h1 : (((args.map Prod.fst).dedup).filter (fun k => decide (¬ k ∈ ([] : List GoStr)))).length
      ≤ ((args.map Prod.fst).dedup).length := List.length_filter_le _ _
  have h2 : ((args.map Prod.fst).dedup).length ≤ (args.map Prod.fst).length :=
    (List.dedup_sublist _).length_le
  rw [List.length_map] at h2
  omega

/-! ### The resolver on acyclic, fully-defined reference graphs -/
/-- Workhorse for C1: at every call site whose ghost expansion path P forms a
reference chain ending in the current preset, whose Go trace is P minus the
empty names, and whose fuel exceeds the number of distinct unvisited keys, the
resolver returns the spec-side textual substitution and no errors. -/
theorem resolve_acyclic_spec_aux (args : List (GoStr × List GoStr))
    (hdef : AllRefsDefined args) (hacyc : Acyclic args) :
    ∀ (fuel : Nat) (P : List GoStr) (presetName nameAs previousPreset : GoStr)
      (previousTrace : List GoStr),
      (List.lookup presetName args).isSome = true →
      List.Chain' (RefersTo args) (P ++ [presetName]) →
      mkTrace previousTrace previousPreset = dropEmpties P →
      remainingKeys args P + 1 ≤ fuel →
      resolveReferencesFuel args fuel presetName nameAs previousPreset previousTrace
        = (specExpandFuel args fuel presetName, []) := by
  intro fuel
  induction fuel with
  | zero =>
    intro P presetName nameAs previousPreset previousTrace _ _ _ hfuel
    omega
  | succ fuel ih =>
    intro P presetName nameAs previousPreset previousTrace hsome hchain htrace hfuel
    obtain ⟨arguments, hlook⟩ := Option.isSome_iff_exists.mp hsome
    have hnotP : ¬ presetName ∈ P := not_mem_of_chain'_acyclic hacyc hchain
    have hnot : ¬ presetName ∈ mkTrace previousTrace previousPreset := by
      rw [htrace]
      intro hh
      exact hnotP (mem_of_mem_dropEmpties hh)
    have hkey : presetName ∈ args.map Prod.fst :=
      List.mem_map.mpr ⟨(presetName, arguments), lookup_mem hlook, rfl⟩
    have hmemargs := lookup_mem hlook
    have inner : ∀ (sub : List GoStr), (∀ t ∈ sub, t ∈ arguments) →
        List.foldr (resolveStep args fuel nameAs presetName (mkTrace previousTrace previousPreset))
            ([], []) sub
          = (List.foldr (specStep args fuel) [] sub, []) := by
      intro sub
      induction sub with
      | nil => intro _; rfl
      | cons tok rest ihsub =>
        intro hsubm
        have hrest := ihsub (fun t ht => hsubm t (List.mem_cons_of_mem _ ht))
        have htok : tok ∈ arguments := hsubm tok (List.mem_cons_self _ _)
        rw [List.foldr_cons, List.foldr_cons, hrest]
        cases hcut : cutPrefix ReferencePrefix tok with
        | none => simp [resolveStep, specStep, hcut]
        | some reference =>
          have href : RefersTo args presetName reference := by
            refine ⟨arguments, hlook, ?_⟩
            rw [← cutPrefix_eq_some.mp hcut]
            exact htok
          have hchild_chain : List.Chain' (RefersTo args) ((P ++ [presetName]) ++ [reference]) :=
            chain'_snoc hchain href
          have hchild_some : (List.lookup reference args).isSome = true := by
            have hh := hdef (presetName, arguments) hmemargs tok htok
            simp only [refTargetDefined, hcut] at hh
            exact hh
          have hchild_trace : mkTrace (mkTrace previousTrace previousPreset) presetName
              = dropEmpties (P ++ [presetName]) := by
            rw [htrace, dropEmpties_append_singleton]
            rfl
          have hchild_fuel : remainingKeys args (P ++ [presetName]) + 1 ≤ fuel := by
            have := remainingKeys_snoc_lt hkey hnotP
            omega
          have hchild := ih (P ++ [presetName]) reference nameAs presetName
            (mkTrace previousTrace previousPreset) hchild_some hchild_chain hchild_trace hchild_fuel
          simp [resolveStep, specStep, hcut, hchild]
    rw [resolveReferencesFuel_succ, specExpandFuel_succ]
    simp only [hlook]
    rw [if_neg hnot]
    exact inner arguments (fun t ht => ht)

/-- Workhorse for C5: under acyclicity alone the resolver's value is the same
at every sufficient fuel, which is the fuelled rendering of termination of the
Go recursion. -/
theorem resolve_fuel_stable_aux (args : List (GoStr × List GoStr)) (hacyc : Acyclic args) :
    ∀ (f₁ f₂ : Nat) (P : List GoStr) (presetName nameAs previousPreset : GoStr)
      (previousTrace : List GoStr),
      List.Chain' (RefersTo args) (P ++ [presetName]) →
      mkTrace previousTrace previousPreset = dropEmpties P →
      remainingKeys args P + 1 ≤ f₁ →
      remainingKeys args P + 1 ≤ f₂ →
      resolveReferencesFuel args f₁ presetName nameAs previousPreset previousTrace
        = resolveReferencesFuel args f₂ presetName nameAs previousPreset previousTrace := by
  intro f₁
  induction f₁ with
  | zero =>
    intro f₂ P presetName nameAs previousPreset previousTrace _ _ hf₁ _
    omega
  | succ f₁ ih =>
    intro f₂ P presetName nameAs previousPreset previousTrace hchain htrace hf₁ hf₂
    obtain ⟨f₂', rfl⟩ : ∃ k, f₂ = k + 1 := by
      cases f₂ with
      | zero => omega
      | succ k => exact ⟨k, rfl⟩
    rw [resolveReferencesFuel_succ, resolveReferencesFuel_succ]
    cases hlook : List.lookup presetName args with
    | none => simp only [hlook]
    | some arguments =>
      simp only [hlook]
      by_cases hmem : presetName ∈ mkTrace previousTrace previousPreset
      · rw [if_pos hmem, if_pos hmem]
      · rw [if_neg hmem, if_neg hmem]
        have hnotP : ¬ presetName ∈ P := not_mem_of_chain'_acyclic hacyc hchain
        have hkey : presetName ∈ args.map Prod.fst :=
          List.mem_map.mpr ⟨(presetName, arguments), lookup_mem hlook, rfl⟩
        have inner : ∀ (sub : List GoStr), (∀ t ∈ sub, t ∈ arguments) →
            List.foldr (resolveStep args f₁ nameAs presetName (mkTrace previousTrace previousPreset))
                ([], []) sub
              = List.foldr (resolveStep args f₂' nameAs presetName (mkTrace previousTrace previousPreset))
                ([], []) sub := by
          intro sub
          induction sub with
          | nil => intro _; rfl
          | cons tok rest ihsub =>
            intro hsubm
            have hrest := ihsub (fun t ht => hsubm t (List.mem_cons_of_mem _ ht))
            have htok : tok ∈ arguments := hsubm tok (List.mem_cons_self _ _)
            rw [List.foldr_cons, List.foldr_cons, hrest]
            cases hcut : cutPrefix ReferencePrefix tok with
            | none => simp [resolveStep, hcut]
            | some reference =>
              have href : RefersTo args presetName reference := by
                refine ⟨arguments, hlook, ?_⟩
                rw [← cutPrefix_eq_some.mp hcut]
                exact htok
              have hchild_chain : List.Chain' (RefersTo args) ((P ++ [presetName]) ++ [reference]) :=
                chain'_snoc hchain href
              have hchild_trace : mkTrace (mkTrace previousTrace previousPreset) presetName
                  = dropEmpties (P ++ [presetName]) := by
                rw [htrace, dropEmpties_append_singleton]
                rfl
              have hlt := remainingKeys_snoc_lt hkey hnotP
              have hchild := ih f₂' (P ++ [presetName]) reference nameAs presetName
                (mkTrace previousTrace previousPreset) hchild_chain hchild_trace
                (by omega) (by omega)
              simp [resolveStep, hcut, hchild]
        exact inner arguments (fun t ht => ht)

/-- The error component of the argument fold is the in-order concatenation of
the full error lists of the reference branches: no branch's errors are dropped
and no error stops the traversal of the remaining tokens. -/
theorem resolveFold_errs (args : List (GoStr × List GoStr)) (fuel : Nat)
    (nameAs presetName : GoStr) (trace : List GoStr) :
    ∀ (arguments : List GoStr),
      (List.foldr (resolveStep args fuel nameAs presetName trace) ([], []) arguments).2
        = arguments.flatMap (fun tok =>
            match cutPrefix ReferencePrefix tok with
            | some reference =>
              (resolveReferencesFuel args fuel reference nameAs presetName trace).2
            | none => []) := by
  intro arguments
  induction arguments with
  | nil => rfl
  | cons tok rest ih =>
    rw [List.foldr_cons, List.flatMap_cons]
    cases hcut : cutPrefix ReferencePrefix tok with
    | none => simp [resolveStep, hcut, ih]
    | some reference => simp [resolveStep, hcut, ih]

theorem unknownPresetErr_ne_marker (nameAs presetName previousPreset : GoStr) :
    ¬ outOfFuelErr = unknownPresetErr nameAs presetName previousPreset := by
  intro h
  have h0 := congrArg List.head? h
  rw [show (unknownPresetErr nameAs presetName previousPreset).head? = some '"' from rfl] at h0
  rw [show outOfFuelErr.head? = some 'a' from rfl] at h0
  exact absurd (Option.some.inj h0) (by decide)

theorem cyclicErr_ne_marker (nameAs : GoStr) (trace : List GoStr) :
    ¬ outOfFuelErr = cyclicErr nameAs trace := by
  intro h
  have h0 := congrArg List.head? h
  rw [show (cyclicErr nameAs trace).head? = some '"' from rfl] at h0
  rw [show outOfFuelErr.head? = some 'a' from rfl] at h0
  exact absurd (Option.some.inj h0) (by decide)

/-- Companion to the fuel-stability lemma: with the same invariants, the
resolver's error list never contains the out-of-fuel marker — the recursion
genuinely bottoms out within the fuel bound. -/
theorem resolve_no_fuel_marker_aux (args : List (GoStr × List GoStr)) (hacyc : Acyclic args) :
    ∀ (fuel : Nat) (P : List GoStr) (presetName nameAs previousPreset : GoStr)
      (previousTrace : List GoStr),
      List.Chain' (RefersTo args) (P ++ [presetName]) →
      mkTrace previousTrace previousPreset = dropEmpties P →
      remainingKeys args P + 1 ≤ fuel →
      ¬ outOfFuelErr ∈
        (resolveReferencesFuel args fuel presetName nameAs previousPreset previousTrace).2 := by
  intro fuel
  induction fuel with
  | zero =>
    intro P presetName nameAs previousPreset previousTrace _ _ hfuel
    omega
  | succ fuel ih =>
    intro P presetName nameAs previousPreset previousTrace hchain htrace hfuel
    rw [resolveReferencesFuel_succ]
    cases hlook : List.lookup presetName args with
    | none =>
      simp only [hlook]
      intro hin
      rw [List.mem_singleton] at hin
      exact unknownPresetErr_ne_marker _ _ _ hin
    | some arguments =>
      simp only [hlook]
      by_cases hmem : presetName ∈ mkTrace previousTrace previousPreset
      · rw [if_pos hmem]
        intro hin
        rw [List.mem_singleton] at hin
        exact cyclicErr_ne_marker _ _ hin
      · rw [if_neg hmem]
        have hnotP : ¬ presetName ∈ P := not_mem_of_chain'_acyclic hacyc hchain
        have hkey : presetName ∈ args.map Prod.fst :=
          List.mem_map.mpr ⟨(presetName, arguments), lookup_mem hlook, rfl⟩
        have hlt := remainingKeys_snoc_lt hkey hnotP
        rw [resolveFold_errs]
        intro hin
        rw [List.mem_flatMap] at hin
        obtain ⟨tok, htok, hintok⟩ := hin
        cases hcut : cutPrefix ReferencePrefix tok with
        | none => simp [hcut] at hintok
        | some reference =>
          simp only [hcut] at hintok
          have href : RefersTo args presetName reference := by
            refine ⟨arguments, hlook, ?_⟩
            rw [← cutPrefix_eq_some.mp hcut]
            exact htok
          exact ih (P ++ [presetName]) reference nameAs presetName
            (mkTrace previousTrace previousPreset)
            (chain'_snoc hchain href)
            (by rw [htrace, dropEmpties_append_singleton]; rfl)
            (by omega) hintok

theorem refersTo_rank_lt {args : List (GoStr × List GoStr)} {rank : GoStr → Nat}
    (h : rankedBy args rank = true) {a b : GoStr} (hab : RefersTo args a b) :
    rank b < rank a := by
  obtain ⟨l, hl, hb⟩ := hab
  have hmem := lookup_mem hl
  rw [rankedBy, List.all_eq_true] at h
  have h2 := h (a, l) hmem
  rw [List.all_eq_true] at h2
  have h3 := h2 (ReferencePrefix ++ b) hb
  have hcut : cutPrefix ReferencePrefix (ReferencePrefix ++ b) = some b :=
    cutPrefix_eq_some.mpr rfl
  simp only [hcut] at h3
  exact of_decide_eq_true h3

theorem chain_rank_lt {args : List (GoStr × List GoStr)} {rank : GoStr → Nat}
    (h : rankedBy args rank = true) :
    ∀ (l : List GoStr) (b a : GoStr), List.Chain (RefersTo args) b (l ++ [a]) →
      rank a < rank b := by
  intro l
  induction l with
  | nil =>
    intro b a hc
    rw [List.nil_append, List.chain_cons] at hc
    exact refersTo_rank_lt h hc.1
  | cons c cs ih =>
    intro b a hc
    rw [List.cons_append, List.chain_cons] at hc
    exact lt_trans (ih c a hc.2) (refersTo_rank_lt h hc.1)

/-- Any reference graph with a strictly descending ranking is acyclic. -/
theorem acyclic_of_ranked (args : List (GoStr × List GoStr)) (rank : GoStr → Nat)
    (h : rankedBy args rank = true) : Acyclic args := by
  intro a l hc
  exact absurd (chain_rank_lt h l a a hc) (lt_irrefl _)

theorem exResolve_acyclic : Acyclic exResolve :=
  acyclic_of_ranked exResolve exRank (by decide)

/-! ### Claim C1 -/
/-- C1: for a tool whose named argument lists form an acyclic reference graph
with every reference defined, ResolveReferencesForPreset returns no errors and
returns exactly the left-to-right textual substitution of every reference
token by the fully-expanded referenced list (tree expansion, re-expanding a
list at each occurrence), as captured by the spec-side definition specExpand. -/
theorem C1_resolver_equals_spec_substitution (args : List (GoStr × List GoStr))
    (presetName nameAs : GoStr)
    (hdef : AllRefsDefined args) (hacyc : Acyclic args)
    (hstart : (List.lookup presetName args).isSome = true) :
    ResolveReferencesForPreset args presetName nameAs = (specExpand args presetName, []) := by
  have hb := remainingKeys_nil_le args
  exact resolve_acyclic_spec_aux args hdef hacyc (args.length + 1) [] presetName nameAs [] []
    hstart (by simp)
    (by simp [mkTrace, dropEmpties]) (by omega)

/-- Witness for C1 at the spec's worked example: the resolver agrees with the
spec substitution and the expansion is 1 2 3 4 5 1 2 3. -/
theorem C1_resolver_equals_spec_substitution_witness :
    ResolveReferencesForPreset exResolve (("start").data) (("tool").data)
      = (specExpand exResolve (("start").data), [])
    ∧ specExpand exResolve (("start").data)
      = [("1").data, ("2").data, ("3").data, ("4").data, ("5").data,
         ("1").data, ("2").data, ("3").data] :=
  ⟨C1_resolver_equals_spec_substitution exResolve (("start").data) (("tool").data)
      (by decide) exResolve_acyclic (by decide),
   by decide⟩

/-! ### Claim C2 -/
/-- C2 counterexample: a tool may hold a list named by the empty string, and
the bare reference token "@" inside it names that same list, which is on the
current expansion path; the claim demands a cycle error, but resolution never
returns at all: the Go recursion is infinite because config.go line 240 never
records the empty name on the trace, so the embedding reports fuel exhaustion
at every fuel. -/
theorem C2_counterexample : NeverResolves exEmptyLoop [] (("tool").data) := by
  intro fuel
  induction fuel with
  | zero => rfl
  | succ n ih =>
    rw [resolveReferencesFuel_succ]
    have hlook : List.lookup ([] : GoStr) exEmptyLoop = some [("@").data] := by decide
    simp only [hlook]
    rw [if_neg (by simp [mkTrace])]
    have hcut : cutPrefix ReferencePrefix (("@").data) = some [] := by decide
    simp [resolveStep, hcut, mkTrace, ih]

/-- C2 (amended): whenever a reference reaches a (defined) list name that is
already recorded on the per-branch trace — which records every non-empty name
on the current expansion path — the call returns exactly one cycle error whose
message ends with the full dot-to-dot trace joined by " -> " and terminated by
the revisited name; and the spec's direct self-reference example start=["@start"]
yields exactly the trace start -> start. -/
theorem C2_cycle_error_with_trace :
    (∀ (args : List (GoStr × List GoStr)) (fuel : Nat)
        (presetName nameAs previousPreset : GoStr) (previousTrace l : List GoStr),
      List.lookup presetName args = some l →
      presetName ∈ mkTrace previousTrace previousPreset →
      resolveReferencesFuel args (fuel + 1) presetName nameAs previousPreset previousTrace
        = ([], [cyclicErr nameAs (mkTrace previousTrace previousPreset ++ [presetName])]))
    ∧ ResolveReferencesForPreset exSelf (("start").data) (("tool").data)
      = ([], [("\"tool\" has cyclic preset reference, trace: start -> start").data]) := by
  constructor
  · intro args fuel presetName nameAs previousPreset previousTrace l hlook hmem
    rw [resolveReferencesFuel_succ]
    simp only [hlook]
    rw [if_pos hmem]
  · decide

/-- Witness for the general part of the amended C2, at a concrete revisit. -/
theorem C2_cycle_error_with_trace_witness :
    resolveReferencesFuel exSelf 5 (("start").data) (("tool").data) (("start").data) []
      = ([], [cyclicErr (("tool").data) [("start").data, ("start").data]]) := by
  have h := C2_cycle_error_with_trace.1 exSelf 4 (("start").data) (("tool").data)
    (("start").data) [] [("@start").data] (by decide) (by decide)
  rw [h]
  decide

/-! ### Claim C3 -/
/-- C3: one resolution pass collects every independent error and returns them
together, without stopping at the first.  Generally, at every call that passes
the lookup and cycle checks the returned error list is exactly the in-order
concatenation, over all argument tokens, of the complete error lists produced
by each reference branch (literal tokens contribute none) — no branch is
skipped after an earlier branch errs.  Concretely, start=["@one","@two"] with
one=["@one"] and two=["@two"] returns both cycle errors, and a pass meeting an
unknown reference and a cycle on separate branches returns both errors. -/
theorem C3_all_errors_collected :
    (∀ (args : List (GoStr × List GoStr)) (fuel : Nat)
        (presetName nameAs previousPreset : GoStr) (previousTrace arguments : List GoStr),
      List.lookup presetName args = some arguments →
      ¬ presetName ∈ mkTrace previousTrace previousPreset →
      (resolveReferencesFuel args (fuel + 1) presetName nameAs previousPreset previousTrace).2
        = arguments.flatMap (fun tok =>
            match cutPrefix ReferencePrefix tok with
            | some reference =>
              (resolveReferencesFuel args fuel reference nameAs presetName
                (mkTrace previousTrace previousPreset)).2
            | none => []))
    ∧ ResolveReferencesForPreset exCollect (("start").data) (("tool").data)
      = ([], [cyclicErr (("tool").data) [("start").data, ("one").data, ("one").data],
              cyclicErr (("tool").data) [("start").data, ("two").data, ("two").data]])
    ∧ ResolveReferencesForPreset exCollectMixed (("start").data) (("tool").data)
      = ([], [unknownPresetErr (("tool").data) (("missing").data) (("start").data),
              cyclicErr (("tool").data) [("start").data, ("loop").data, ("loop").data]]) := by
  refine ⟨?_, by decide, by decide⟩
  intro args fuel presetName nameAs previousPreset previousTrace arguments hlook hnot
  rw [resolveReferencesFuel_succ]
  simp only [hlook]
  rw [if_neg hnot]
  exact resolveFold_errs args fuel nameAs presetName (mkTrace previousTrace previousPreset)
    arguments

/-- Witness for the general part of C3: at the two-cycle example's top call
the error output is the concatenation of the two branch error lists. -/
theorem C3_all_errors_collected_witness :
    (resolveReferencesFuel exCollect (3 + 1) (("start").data) (("tool").data) [] []).2
      = [("@one").data, ("@two").data].flatMap (fun tok =>
          match cutPrefix ReferencePrefix tok with
          | some reference =>
            (resolveReferencesFuel exCollect 3 reference (("tool").data) (("start").data)
              (mkTrace [] [])).2
          | none => []) :=
  C3_all_errors_collected.1 exCollect 3 (("start").data) (("tool").data) [] []
    [("@one").data, ("@two").data] (by decide) (by decide)

/-! ### Claim C5 -/
/-- C5: for an acyclic reference graph the resolution recursion terminates:
the per-branch visited trace grows strictly along every recursive call, so any
fuel beyond the number of argument lists yields one and the same result, and
that stable result is free of the out-of-fuel marker — the recursion bottoms
out within the bound rather than being cut off by it.  Together the two
conjuncts are the fuelled rendering of well-founded termination (by contrast,
the genuinely diverging input of C2's counterexample carries the marker at
every fuel). -/
theorem C5_resolution_terminates_on_acyclic (args : List (GoStr × List GoStr))
    (presetName nameAs : GoStr) (f₁ f₂ : Nat) (hacyc : Acyclic args)
    (h₁ : args.length + 1 ≤ f₁) (h₂ : args.length + 1 ≤ f₂) :
    (resolveReferencesFuel args f₁ presetName nameAs [] []
      = resolveReferencesFuel args f₂ presetName nameAs [] [])
    ∧ ¬ outOfFuelErr ∈ (resolveReferencesFuel args f₁ presetName nameAs [] []).2 := by
  have hb := remainingKeys_nil_le args
  constructor
  · exact resolve_fuel_stable_aux args hacyc f₁ f₂ [] presetName nameAs [] []
      (by simp)
      (by simp [mkTrace, dropEmpties]) (by omega) (by omega)
  · exact resolve_no_fuel_marker_aux args hacyc f₁ [] presetName nameAs [] []
      (by simp)
      (by simp [mkTrace, dropEmpties]) (by omega)

/-- Witness for C5: on the acyclic example the result at the minimal
sufficient fuel equals the result at a much larger fuel and carries no
out-of-fuel marker. -/
theorem C5_resolution_terminates_on_acyclic_witness :
    (resolveReferencesFuel exResolve 3 (("start").data) (("tool").data) [] []
      = resolveReferencesFuel exResolve 20 (("start").data) (("tool").data) [] [])
    ∧ ¬ outOfFuelErr ∈ (resolveReferencesFuel exResolve 3 (("start").data) (("tool").data) [] []).2 :=
  C5_resolution_terminates_on_acyclic exResolve (("start").data) (("tool").data) 3 20
    exResolve_acyclic (by decide) (by decide)

/-! ### Claim C6 -/
/-- C6 counterexample: with start=["@one"] and one=["@missing"], the preset
chain traversed from the starting preset to the unknown reference is
start, one; the error message names only one (the immediately referring list)
and does not contain the chain element start at all, so it does not cite the
preset chain reached so far. -/
theorem C6_counterexample :
    ResolveReferencesForPreset exChain (("start").data) (("tool").data)
      = ([], [unknownPresetErr (("tool").data) (("missing").data) (("one").data)])
    ∧ containsRun (unknownPresetErr (("tool").data) (("missing").data) (("one").data))
        (("start").data) = false := by
  constructor
  · decide
  · decide

/-- C6 (amended): a reference to an undefined list yields exactly one error
citing the tool's display name, the missing list name, and the name of the
list the reference was made from (the immediately preceding preset, not the
whole chain). -/
theorem C6_unknown_reference_error (args : List (GoStr × List GoStr)) (fuel : Nat)
    (presetName nameAs previousPreset : GoStr) (previousTrace : List GoStr)
    (hlook : List.lookup presetName args = none) :
    resolveReferencesFuel args (fuel + 1) presetName nameAs previousPreset previousTrace
      = ([], [goQuote nameAs ++ (" has preset reference that points to an unknown preset ").data
          ++ goQuote presetName ++ (" at: ").data ++ previousPreset]) := by
  rw [resolveReferencesFuel_succ]
  simp only [hlook]
  rfl

/-- Witness for the amended C6 at the concrete two-step chain. -/
theorem C6_unknown_reference_error_witness :
    resolveReferencesFuel exChain 1 (("missing").data) (("tool").data) (("one").data)
        [("start").data]
      = ([], [goQuote (("tool").data)
          ++ (" has preset reference that points to an unknown preset ").data
          ++ goQuote (("missing").data) ++ (" at: ").data ++ (("one").data)]) :=
  C6_unknown_reference_error exChain 0 (("missing").data) (("tool").data) (("one").data)
    [("start").data] (by decide)

/-! ### Claim C4 -/
theorem findBestStep_snd_le (acc : GoStr × Int) (p : GoStr × CompressionResult) :
    (findBestStep acc p).2 ≤ acc.2 := by
  rw [findBestStep]
  by_cases he : p.2.HasError
  · rw [if_pos he]
  · rw [if_neg he]
    by_cases hlt : p.2.FinalSize < acc.2
    · rw [if_pos hlt]
      exact le_of_lt hlt
    · rw [if_neg hlt]

/-- The loop invariant of findBestToolSize: either no error-free candidate
improved on the starting accumulator, or the fold returns the name and size of
an error-free candidate whose size is strictly below the start and minimal
among all error-free candidates. -/
theorem findBest_fold_spec :
    ∀ (results : List (GoStr × CompressionResult)) (acc : GoStr × Int),
      (results.foldl findBestStep acc = acc
        ∧ ∀ p ∈ results, p.2.HasError = false → acc.2 ≤ p.2.FinalSize)
      ∨ (∃ p ∈ results, p.2.HasError = false
          ∧ results.foldl findBestStep acc = (p.1, p.2.FinalSize)
          ∧ p.2.FinalSize < acc.2
          ∧ ∀ q ∈ results, q.2.HasError = false → p.2.FinalSize ≤ q.2.FinalSize) := by
  intro results
  induction results with
  | nil =>
    intro acc
    left
    constructor
    · rfl
    · intro p hp
      cases hp
  | cons p rest ih =>
    intro acc
    rw [List.foldl_cons]
    by_cases he : p.2.HasError = true
    · have hstep : findBestStep acc p = acc := by
        rw [findBestStep, if_pos he]
      rw [hstep]
      rcases ih acc with ⟨heq, hmin⟩ | ⟨w, hw, hwerr, heq, hlt, hmin⟩
      · left
        refine ⟨heq, ?_⟩
        intro q hq hqerr
        rcases List.mem_cons.mp hq with rfl | hq'
        · rw [he] at hqerr
          cases hqerr
        · exact hmin q hq' hqerr
      · right
        refine ⟨w, List.mem_cons_of_mem _ hw, hwerr, heq, hlt, ?_⟩
        intro q hq hqerr
        rcases List.mem_cons.mp hq with rfl | hq'
        · rw [he] at hqerr
          cases hqerr
        · exact hmin q hq' hqerr
    · have he' : p.2.HasError = false := by
        cases h : p.2.HasError
        · rfl
        · exact absurd h he
      by_cases hlt : p.2.FinalSize < acc.2
      · have hstep : findBestStep acc p = (p.1, p.2.FinalSize) := by
          rw [findBestStep, if_neg he, if_pos hlt]
        rw [hstep]
        rcases ih (p.1, p.2.FinalSize) with ⟨heq, hmin⟩ | ⟨w, hw, hwerr, heq, hlt2, hmin⟩
        · right
          refine ⟨p, List.mem_cons_self _ _, he', heq, hlt, ?_⟩
          intro q hq hqerr
          rcases List.mem_cons.mp hq with rfl | hq'
          · exact le_refl _
          · exact hmin q hq' hqerr
        · right
          refine ⟨w, List.mem_cons_of_mem _ hw, hwerr, heq, lt_trans hlt2 hlt, ?_⟩
          intro q hq hqerr
          rcases List.mem_cons.mp hq with rfl | hq'
          · exact le_of_lt hlt2
          · exact hmin q hq' hqerr
      · have hstep : findBestStep acc p = acc := by
          rw [findBestStep, if_neg he, if_neg hlt]
        rw [hstep]
        rcases ih acc with ⟨heq, hmin⟩ | ⟨w, hw, hwerr, heq, hlt2, hmin⟩
        · left
          refine ⟨heq, ?_⟩
          intro q hq hqerr
          rcases List.mem_cons.mp hq with rfl | hq'
          · omega
          · exact hmin q hq' hqerr
        · right
          refine ⟨w, List.mem_cons_of_mem _ hw, hwerr, heq, hlt2, ?_⟩
          intro q hq hqerr
          rcases List.mem_cons.mp hq with rfl | hq'
          · omega
          · exact hmin q hq' hqerr

/-- C4: the winning tool for a file is an error-free candidate of minimal
final size strictly below the original size; when no error-free candidate is
strictly smaller, the winner is empty ("none"), flushResult issues no move in
the best-file write modes — the original file is left untouched — and prints
the untouched notice instead. -/
theorem C4_winner_policy (results : List (GoStr × CompressionResult)) (S : Int)
    (tempPathOf : GoStr → GoStr) (fileInfo : FileInfo)
    (hnames : ∀ p ∈ results, p.1 ≠ ([] : GoStr)) :
    (findBestToolSize results S = [] →
      (∀ p ∈ results, p.2.HasError = false → S ≤ p.2.FinalSize)
      ∧ flushResult results tempPathOf fileInfo (findBestToolSize results S) WriteMode.KeepBest
          = ⟨[], true⟩
      ∧ flushResult results tempPathOf fileInfo (findBestToolSize results S) WriteMode.Overwrite
          = ⟨[], true⟩)
    ∧ (findBestToolSize results S ≠ [] →
      ∃ r, (findBestToolSize results S, r) ∈ results ∧ r.HasError = false ∧ r.FinalSize < S
        ∧ ∀ p ∈ results, p.2.HasError = false → r.FinalSize ≤ p.2.FinalSize) := by
  constructor
  · intro hempty
    refine ⟨?_, ?_, ?_⟩
    · intro p hp hperr
      rcases findBest_fold_spec results ([], S) with ⟨heq, hmin⟩ | ⟨w, hw, hwerr, heq, hlt, hmin⟩
      · exact hmin p hp hperr
      · exact absurd (by rw [findBestToolSize, heq] : findBestToolSize results S = w.1) (by
          rw [hempty]
          intro hh
          exact hnames w hw hh.symm)
    · rw [flushResult, if_pos hempty]
    · rw [flushResult, if_pos hempty]
  · intro hne
    rcases findBest_fold_spec results ([], S) with ⟨heq, hmin⟩ | ⟨w, hw, hwerr, heq, hlt, hmin⟩
    · exact absurd (by rw [findBestToolSize, heq] : findBestToolSize results S = []) hne
    · have hbest : findBestToolSize results S = w.1 := by
        rw [findBestToolSize, heq]
      refine ⟨w.2, ?_, hwerr, hlt, fun p hp hperr => hmin p hp hperr⟩
      rw [hbest]
      exact hw

/-- Witness for C4: the 80-byte error-free candidate wins; the errored 10-byte
candidate does not. -/
theorem C4_winner_policy_witness :
    (∀ p ∈ exResults, p.1 ≠ ([] : GoStr))
    ∧ findBestToolSize exResults 100 = ("a").data
    ∧ (findBestToolSize exResults 100 ≠ [] →
        ∃ r, (findBestToolSize exResults 100, r) ∈ exResults ∧ r.HasError = false
          ∧ r.FinalSize < 100
          ∧ ∀ p ∈ exResults, p.2.HasError = false → r.FinalSize ≤ p.2.FinalSize) :=
  ⟨by decide, by decide,
   (C4_winner_policy exResults 100 (fun t => t) exFileInfo (by decide)).2⟩

theorem lookup_fsRemove_self (fs : FileSystem) (p : GoStr) :
    List.lookup p (fsRemove fs p) = none := by
  induction fs with
  | nil => rfl
  | cons q rest ih =>
    obtain ⟨qk, qv⟩ := q
    by_cases h : qk = p
    · subst h
      simpa [fsRemove, List.filter_cons] using ih
    · have hb : (qk == p) = false := by simp [h]
      have hb' : (p == qk) = false := by
        simp
        intro hh
        exact h hh.symm
      simpa [fsRemove, List.filter_cons, hb, hb', List.lookup] using ih

theorem lookup_fsRemove_ne (fs : FileSystem) {p x : GoStr} (h : ¬ x = p) :
    List.lookup x (fsRemove fs p) = List.lookup x fs := by
  induction fs with
  | nil => rfl
  | cons q rest ih =>
    obtain ⟨qk, qv⟩ := q
    by_cases hq : qk = p
    · subst hq
      have hb : (x == qk) = false := by simp [h]
      simpa [fsRemove, List.filter_cons, List.lookup, hb] using ih
    · have hbq : (qk == p) = false := by simp [hq]
      cases hx : x == qk with
      | true =>
        simp [fsRemove, List.filter_cons, hbq, List.lookup, hx]
      | false =>
        simpa [fsRemove, List.filter_cons, hbq, List.lookup, hx] using ih

/-- C7: moveFile first attempts a plain rename and falls back to
copy-then-delete-source on a link (cross-device) failure, each OS call with
its own failure oracle.  Whenever moveFile reports success — which both the
plain rename and the fully successful fallback do — exactly one artifact
holds the source's contents at the destination and the source is removed; and
on every outcome, success or failure, a complete copy of the artifact remains
readable at the source or at the destination (every losing path returns an
error by the first conjunct's contrapositive), so the artifact is never
silently lost. -/
theorem C7_moveFile_fallback (fs : FileSystem) (pathSrc pathDest content : GoStr)
    (renameOutcome : RenameOutcome) (copyOutcome : CopyOutcome) (removeOutcome : RemoveOutcome)
    (hsrc : List.lookup pathSrc fs = some content) (hne : ¬ pathSrc = pathDest) :
    ((moveFile fs pathSrc pathDest renameOutcome copyOutcome removeOutcome).1 = none →
      List.lookup pathDest
          (moveFile fs pathSrc pathDest renameOutcome copyOutcome removeOutcome).2
        = some content
      ∧ List.lookup pathSrc
          (moveFile fs pathSrc pathDest renameOutcome copyOutcome removeOutcome).2 = none)
    ∧ (renameOutcome = RenameOutcome.renamed →
      (moveFile fs pathSrc pathDest renameOutcome copyOutcome removeOutcome).1 = none)
    ∧ (renameOutcome = RenameOutcome.linkError → copyOutcome = CopyOutcome.copied →
      removeOutcome = RemoveOutcome.removed →
      (moveFile fs pathSrc pathDest renameOutcome copyOutcome removeOutcome).1 = none)
    ∧ (List.lookup pathSrc
          (moveFile fs pathSrc pathDest renameOutcome copyOutcome removeOutcome).2
        = some content
      ∨ List.lookup pathDest
          (moveFile fs pathSrc pathDest renameOutcome copyOutcome removeOutcome).2
        = some content) := by
  have hsk : (pathSrc == pathDest) = false := by
    simp
    exact hne
  have hmoved : List.lookup pathDest (fsRemove ((pathDest, content) :: fs) pathSrc)
      = some content := by
    rw [lookup_fsRemove_ne _ (fun hh => hne hh.symm)]
    simp [List.lookup]
  have hgone : List.lookup pathSrc (fsRemove ((pathDest, content) :: fs) pathSrc) = none :=
    lookup_fsRemove_self _ _
  have hkeep : ∀ w : GoStr, List.lookup pathSrc ((pathDest, w) :: fs) = some content := by
    intro w
    simp [List.lookup, hsk, hsrc]
  cases renameOutcome with
  | renamed =>
    refine ⟨?_, ?_, ?_, ?_⟩
    · intro _
      exact ⟨by simp [moveFile, hsrc, hmoved], by simp [moveFile, hsrc, hgone]⟩
    · intro _
      simp [moveFile, hsrc]
    · intro h
      cases h
    · right
      simp [moveFile, hsrc, hmoved]
  | otherError =>
    refine ⟨?_, ?_, ?_, ?_⟩
    · intro habs
      simp [moveFile] at habs
    · intro h
      cases h
    · intro h
      cases h
    · left
      simp [moveFile, hsrc]
  | linkError =>
    cases copyOutcome with
    | copied =>
      cases removeOutcome with
      | removed =>
        refine ⟨?_, ?_, ?_, ?_⟩
        · intro _
          exact ⟨by simp [moveFile, copyFileTo, hsrc, hmoved],
            by simp [moveFile, copyFileTo, hsrc, hgone]⟩
        · intro h
          cases h
        · intro _ _ _
          simp [moveFile, copyFileTo, hsrc]
        · right
          simp [moveFile, copyFileTo, hsrc, hmoved]
      | removeFailed =>
        refine ⟨?_, ?_, ?_, ?_⟩
        · intro habs
          simp [moveFile, copyFileTo, hsrc] at habs
        · intro h
          cases h
        · intro _ _ h
          cases h
        · left
          simp [moveFile, copyFileTo, hsrc, hkeep]
    | openFailed =>
      refine ⟨?_, ?_, ?_, ?_⟩
      · intro habs
        simp [moveFile, copyFileTo, hsrc] at habs
      · intro h
        cases h
      · intro _ h
        cases h
      · left
        simp [moveFile, copyFileTo, hsrc]
    | createFailed =>
      refine ⟨?_, ?_, ?_, ?_⟩
      · intro habs
        simp [moveFile, copyFileTo, hsrc] at habs
      · intro h
        cases h
      · intro _ h
        cases h
      · left
        simp [moveFile, copyFileTo, hsrc]
    | writeFailed w =>
      refine ⟨?_, ?_, ?_, ?_⟩
      · intro habs
        simp [moveFile, copyFileTo, hsrc] at habs
      · intro h
        cases h
      · intro _ h
        cases h
      · left
        simp [moveFile, copyFileTo, hsrc, hkeep]

/-- Witness for C7: the simulated cross-device failure at a concrete file
system, with the copy and the source removal succeeding, still yields the
artifact at the destination with the source removed. -/
theorem C7_moveFile_fallback_witness :
    (moveFile exFS (("a").data) (("b").data) RenameOutcome.linkError CopyOutcome.copied
        RemoveOutcome.removed).1 = none
    ∧ List.lookup (("b").data)
        (moveFile exFS (("a").data) (("b").data) RenameOutcome.linkError CopyOutcome.copied
          RemoveOutcome.removed).2 = some (("payload").data)
    ∧ List.lookup (("a").data)
        (moveFile exFS (("a").data) (("b").data) RenameOutcome.linkError CopyOutcome.copied
          RemoveOutcome.removed).2 = none := by
  have h := C7_moveFile_fallback exFS (("a").data) (("b").data) (("payload").data)
    RenameOutcome.linkError CopyOutcome.copied RemoveOutcome.removed (by decide) (by decide)
  have hs := h.2.2.1 rfl rfl rfl
  exact ⟨hs, (h.1 hs).1, (h.1 hs).2⟩

/-- C8: in stdout mode a failed temp-file creation empties cc.inputPaths, so
executeAndReport refuses to start the process (cmd.Run is never reached, ran
flag false) whatever the availability oracle says, and the (file, tool) result
records the failure: CreateError holds the creation error and CommandError is
set (errNoInput when the tool was available, errCmdNotFound otherwise).
Sibling invocations hold their own PrepState and are structurally unaffected. -/
theorem C8_stdout_create_failure_skips_process (fileInfo : FileInfo) (toolName e : GoStr)
    (copyErr : Option GoStr) (isAvailable : Bool) (runErr closeErr : Option GoStr)
    (arguments : List GoStr) (timeTaken : Int) (readSize : Except GoStr Int) :
    (executeAndReport isAvailable
        (prepareSingleTempFile OutputMode.Stdout fileInfo toolName (some e) copyErr).inputPaths
        (prepareSingleTempFile OutputMode.Stdout fileInfo toolName (some e) copyErr).stdoutFile
        runErr closeErr).2 = false
    ∧ (generateSingleResult isAvailable
        (executeAndReport isAvailable
          (prepareSingleTempFile OutputMode.Stdout fileInfo toolName (some e) copyErr).inputPaths
          (prepareSingleTempFile OutputMode.Stdout fileInfo toolName (some e) copyErr).stdoutFile
          runErr closeErr).1
        arguments timeTaken fileInfo
        (prepareSingleTempFile OutputMode.Stdout fileInfo toolName (some e) copyErr).tempFile
        readSize).CreateError = some e
    ∧ (generateSingleResult isAvailable
        (executeAndReport isAvailable
          (prepareSingleTempFile OutputMode.Stdout fileInfo toolName (some e) copyErr).inputPaths
          (prepareSingleTempFile OutputMode.Stdout fileInfo toolName (some e) copyErr).stdoutFile
          runErr closeErr).1
        arguments timeTaken fileInfo
        (prepareSingleTempFile OutputMode.Stdout fileInfo toolName (some e) copyErr).tempFile
        readSize).CommandError.isSome = true := by
  have hprep : prepareSingleTempFile OutputMode.Stdout fileInfo toolName (some e) copyErr
      = ⟨⟨compressedFilePath tempDir fileInfo.BaseName toolName fileInfo.Extension, some e⟩,
         [], none⟩ := rfl
  rw [hprep]
  cases isAvailable with
  | false => simp [executeAndReport, generateSingleResult, generateErrorResult]
  | true => simp [executeAndReport, generateSingleResult]

/-- C9: a result generated for an invocation that failed before any measurable
output existed (tool unavailable, or temp-file creation failed) carries
FinalSize equal to OriginalSize (the original file's size), is flagged as
errored, and is therefore skipped outright by the winner-selection step, so it
never registers as smaller than the original. -/
theorem C9_errored_results_keep_original_size (isAvailable : Bool)
    (commandError : Option GoStr) (arguments : List GoStr) (timeTaken : Int)
    (fileInfo : FileInfo) (tempFile : TempFile) (readSize : Except GoStr Int)
    (toolName : GoStr) (acc : GoStr × Int)
    (h : isAvailable = false ∨ tempFile.CreateError.isSome = true) :
    (generateSingleResult isAvailable commandError arguments timeTaken fileInfo
        tempFile readSize).FinalSize
      = (generateSingleResult isAvailable commandError arguments timeTaken fileInfo
        tempFile readSize).OriginalSize
    ∧ (generateSingleResult isAvailable commandError arguments timeTaken fileInfo
        tempFile readSize).OriginalSize = fileInfo.Size
    ∧ (generateSingleResult isAvailable commandError arguments timeTaken fileInfo
        tempFile readSize).HasError = true
    ∧ findBestStep acc
        (toolName, generateSingleResult isAvailable commandError arguments timeTaken fileInfo
          tempFile readSize) = acc := by
  rcases h with h | h
  · subst h
    simp [generateSingleResult, generateErrorResult, CompressionResult.HasError, findBestStep]
  · cases isAvailable with
    | false =>
      simp [generateSingleResult, generateErrorResult, CompressionResult.HasError, findBestStep]
    | true =>
      simp [generateSingleResult, CompressionResult.HasError, findBestStep, h]

/-- Witness for C9 at a concrete unavailable tool. -/
theorem C9_errored_results_keep_original_size_witness :
    (false = false ∨ (TempFile.mk (("t").data) none).CreateError.isSome = true)
    ∧ (generateSingleResult false none [] 0 exFileInfo ⟨("t").data, none⟩
        (Except.ok 5)).FinalSize
      = (generateSingleResult false none [] 0 exFileInfo ⟨("t").data, none⟩
        (Except.ok 5)).OriginalSize
    ∧ findBestStep (([], 100) : GoStr × Int)
        ((("gzip").data),
         generateSingleResult false none [] 0 exFileInfo ⟨("t").data, none⟩ (Except.ok 5))
      = (([], 100) : GoStr × Int) :=
  ⟨Or.inl rfl,
   (C9_errored_results_keep_original_size false none [] 0 exFileInfo ⟨("t").data, none⟩
      (Except.ok 5) (("gzip").data) (([], 100) : GoStr × Int) (Or.inl rfl)).1,
   (C9_errored_results_keep_original_size false none [] 0 exFileInfo ⟨("t").data, none⟩
      (Except.ok 5) (("gzip").data) (([], 100) : GoStr × Int) (Or.inl rfl)).2.2.2⟩

/-- C10: a readable input whose detected content type is not decodable
(image/png, image/jpeg, image/gif) yields the zero-value benchmark — no error,
zero trials, zero total and average — and an error can only arise from a read
failure, a detection failure, or a failed validation decode of a supported
type. -/
theorem C10_nondecodable_returns_zero_bench :
    (∀ (data mime : GoStr) (validateErr : Option GoStr) (loopTotal loopTrials : Int),
      getDecodeFunc mime = false →
      benchDecodeTime (Except.ok data) (Except.ok mime) validateErr loopTotal loopTrials
        = { Total := 0, Average := 0, Trials := 0, Err := none })
    ∧ (∀ (readData detected : Except GoStr GoStr) (validateErr : Option GoStr)
        (loopTotal loopTrials : Int) (e : GoStr),
      (benchDecodeTime readData detected validateErr loopTotal loopTrials).Err = some e →
      readData = Except.error e
      ∨ ((∃ d, readData = Except.ok d) ∧ detected = Except.error e)
      ∨ (∃ d mime, readData = Except.ok d ∧ detected = Except.ok mime
          ∧ getDecodeFunc mime = true ∧ validateErr = some e)) := by
  constructor
  · intro data mime validateErr loopTotal loopTrials h
    simp [benchDecodeTime, h]
  · intro readData detected validateErr loopTotal loopTrials e h
    cases readData with
    | error d =>
      left
      simp [benchDecodeTime] at h
      rw [h]
    | ok d =>
      cases detected with
      | error m =>
        right
        left
        refine ⟨⟨d, rfl⟩, ?_⟩
        simp [benchDecodeTime] at h
        rw [h]
      | ok mime =>
        right
        right
        cases hdec : getDecodeFunc mime with
        | false => simp [benchDecodeTime, hdec] at h
        | true =>
          cases validateErr with
          | none => simp [benchDecodeTime, hdec] at h
          | some ev =>
            simp [benchDecodeTime, hdec] at h
            exact ⟨d, mime, rfl, rfl, hdec, by rw [h]⟩

/-- Witness for C10 at a concrete non-decodable type. -/
theorem C10_nondecodable_returns_zero_bench_witness :
    getDecodeFunc (("text/plain").data) = false
    ∧ benchDecodeTime (Except.ok (("hello").data)) (Except.ok (("text/plain").data))
        none 7 3
      = { Total := 0, Average := 0, Trials := 0, Err := none } :=
  ⟨by decide,
   C10_nondecodable_returns_zero_bench.1 (("hello").data) (("text/plain").data)
     none 7 3 (by decide)⟩
